import Mathlib

/-!
Shallow embedding of the minesweeper board engine in `src/lib.rs`
(`MapElement`, `Point`, `Board`, `create_board`, `surrounding_points`,
`numbers_on_board`, `open_item`), together with proofs of the
specification's claims about it.

Modelling conventions:
* Rust `i32` coordinates become `Int`; `usize` dimensions become `Nat`.
* Fallible code (panics via `unwrap` / `unreachable!`) returns `Option`:
  `none` models a panic.
* The injected `FnMut(usize, usize) -> usize` random source is modelled as
  the stream `s : Nat → Nat` of its successive return values (the loop
  makes two calls per iteration, so iteration `i` draws
  `(s (2*i), s (2*i+1))`), and the unbounded rejection-sampling loop of
  `create_board` takes explicit fuel: `none` models non-termination within
  the given fuel.
-/

set_option maxHeartbeats 1000000

/-- Cell of the minesweeper grid; `opened` models the Rust field `open`
(`open` is a Lean keyword). `Number.count` models the Rust `i32` count. -/
inductive MapElement where
  | Mine (opened : Bool)
  | Empty (opened : Bool)
  | Number (opened : Bool) (count : Int)
deriving DecidableEq

/-- Signed coordinate pair, as the Rust `Point { x: i32, y: i32 }`. -/
structure Point where
  x : Int
  y : Int
deriving DecidableEq

/-- `Point::new`, casting unsigned grid indices to signed coordinates. -/
def Point.new (x y : Nat) : Point := ⟨(x : Int), (y : Int)⟩

/-- The Rust `Board`: a grid of rows (`map[y][x]`) plus dimensions and the
mine count. -/
structure Board where
  map : List (List MapElement)
  width : Nat
  height : Nat
  mines : Nat
deriving DecidableEq

/-- `Board::at`: bounds-checked lookup; `none` for an out-of-bounds point.
The in-bounds list indexing `self.map[y][x]` is modelled fallibly. -/
def Board.at? (b : Board) (p : Point) : Option MapElement :=
  if p.x < 0 ∨ p.x ≥ (b.width : Int) ∨ p.y < 0 ∨ p.y ≥ (b.height : Int) then
    none
  else
    (b.map[p.y.toNat]?).bind (fun row => row[p.x.toNat]?)

/-- Left-to-right fallible map: builds the list of results, propagating the
first failure (a panic in a Rust cell expression aborts the whole build). -/
def mapOpt {α β : Type} (f : α → Option β) : List α → Option (List β)
  | [] => some []
  | a :: l =>
    match f a with
    | none => none
    | some b =>
      match mapOpt f l with
      | none => none
      | some bs => some (b :: bs)

/-- The row-major grid comprehension `(0..height).map(|y| (0..width).map(|x| ...))`
shared by `Board::replace`, `create_board` and `numbers_on_board`, in its
fallible form (a `none` cell models a panic in the Rust cell expression). -/
def mkRowsM (w h : Nat) (f : Nat → Nat → Option MapElement) :
    Option (List (List MapElement)) :=
  mapOpt (fun y => mapOpt (fun x => f x y) (List.range w)) (List.range h)

/-- `Board::replace`: rebuild the grid, substituting `el` at `p`; the
`unwrap` on `at` is modelled by the fallible cell expression. -/
def Board.replace (b : Board) (p : Point) (el : MapElement) : Option Board :=
  (mkRowsM b.width b.height (fun x y =>
      if Point.new x y = p then some el else b.at? (Point.new x y))).map
    (fun map =>
      { width := b.width, height := b.height, mines := b.mines, map := map })

/-- The point the loop body builds from the random source's two calls in
iteration `i`: `Point::new(rand(0, width), rand(0, height))`. -/
def drawPt (s : Nat → Nat) (i : Nat) : Point :=
  ⟨(s (2 * i) : Int), (s (2 * i + 1) : Int)⟩

/-- One iteration body of `create_board`'s mine-placement loop, iterated
with explicit fuel: draw the point of iteration `i`, skip it if already
chosen, otherwise push it; stop once `m` points are collected. `none`
models running out of fuel (the Rust loop has no bound). -/
def placeMines (s : Nat → Nat) (m : Nat) : Nat → Nat → List Point → Option (List Point)
  | 0, _, acc => if acc.length = m then some acc else none
  | fuel + 1, i, acc =>
    if acc.length = m then some acc
    else if drawPt s i ∈ acc then placeMines s m fuel (i + 1) acc
    else placeMines s m fuel (i + 1) (acc ++ [drawPt s i])

/-- `create_board`: place `mines` distinct random points, then build the
grid with `Mine{open:false}` at those points and `Empty{open:false}`
everywhere else. -/
def create_board (width height mines : Nat) (s : Nat → Nat) (fuel : Nat) :
    Option Board :=
  (placeMines s mines fuel 0 []).map (fun points =>
    { width := width, height := height, mines := mines,
      map := (List.range height).map (fun y =>
        (List.range width).map (fun x =>
          if Point.new x y ∈ points then MapElement.Mine false
          else MapElement.Empty false)) })

/-- `surrounding_points`: the 3×3 block around `p` minus `p` itself,
x outer, y inner, via `flat_map`/`map`/`filter` exactly as in the source. -/
def surrounding_points (p : Point) : List Point :=
  (([p.x - 1, p.x, p.x + 1].map (fun x =>
    (([p.y - 1, p.y, p.y + 1].map (fun y => Point.mk x y)).filter
      (fun q => decide (p.x ≠ q.x) || decide (p.y ≠ q.y))))).flatten)

/-- The neighbour-mine sum computed inside `numbers_on_board`: each
surrounding point contributes 1 if it holds a mine, 0 otherwise
(out-of-bounds and non-mine cells contribute 0). -/
def countMines (b : Board) (p : Point) : Int :=
  ((surrounding_points p).map (fun q =>
    match b.at? q with
    | none => 0
    | some (MapElement.Mine _) => 1
    | some (MapElement.Empty _) => 0
    | some (MapElement.Number _ _) => 0)).sum

/-- `numbers_on_board`: mines pass through (reset to unrevealed), empty
cells become `Empty`/`Number` from the neighbour count, anything else hits
`unreachable!()` (modelled as `none`). -/
def numbers_on_board (b : Board) : Option Board :=
  (mkRowsM b.width b.height (fun x y =>
      match b.at? (Point.new x y) with
      | some (MapElement.Mine _) => some (MapElement.Mine false)
      | some (MapElement.Empty _) =>
        some (if countMines b (Point.new x y) = 0 then MapElement.Empty false
              else MapElement.Number false (countMines b (Point.new x y)))
      | _ => none)).map
    (fun map =>
      { height := b.height, width := b.width, mines := b.mines, map := map })

/-- `open_item`: reveal an unrevealed empty or number cell; any other state
hits `unreachable!()` (modelled as `none`). -/
def open_item (b : Board) (point : Point) : Option Board :=
  match b.at? point with
  | some (MapElement.Empty false) => b.replace point (MapElement.Empty true)
  | some (MapElement.Number false count) =>
      b.replace point (MapElement.Number true count)
  | _ => none

/-- A board is well-formed when its grid really is `height` rows of
`width` columns; every `Board` built by this module satisfies it. -/
def Board.WellFormed (b : Board) : Prop :=
  b.map.length = b.height ∧ ∀ row ∈ b.map, row.length = b.width

instance (b : Board) : Decidable b.WellFormed :=
  decidable_of_iff
    (b.map.length = b.height ∧ ∀ row ∈ b.map, row.length = b.width) Iff.rfl

/-- The point is inside the board's bounds. -/
def Board.InB (b : Board) (p : Point) : Prop :=
  0 ≤ p.x ∧ p.x < (b.width : Int) ∧ 0 ≤ p.y ∧ p.y < (b.height : Int)

instance (b : Board) (p : Point) : Decidable (b.InB p) :=
  decidable_of_iff
    (0 ≤ p.x ∧ p.x < (b.width : Int) ∧ 0 ≤ p.y ∧ p.y < (b.height : Int)) Iff.rfl

/-- Total in-bounds cell lookup (the value `Board::at` returns on a
well-formed board at an in-bounds point). -/
def getCell (b : Board) (x y : Nat) : MapElement :=
  (b.map.getD y []).getD x (MapElement.Empty false)

/-- Is the cell a mine? -/
def isMine : MapElement → Bool
  | MapElement.Mine _ => true
  | _ => false

/-- Is the cell a mine or an empty placeholder (no `Number`)? -/
def isMineOrEmpty : MapElement → Bool
  | MapElement.Mine _ => true
  | MapElement.Empty _ => true
  | MapElement.Number _ _ => false

/-- The board holds no `Number` cell, as after `create_board`. -/
def noNumbers (b : Board) : Prop :=
  ∀ row ∈ b.map, ∀ e ∈ row, isMineOrEmpty e = true

instance (b : Board) : Decidable (noNumbers b) :=
  decidable_of_iff (∀ row ∈ b.map, ∀ e ∈ row, isMineOrEmpty e = true) Iff.rfl

/-- Does the board hold a mine at `q`? -/
def isMineAt (b : Board) (q : Point) : Bool :=
  match b.at? q with
  | some (MapElement.Mine _) => true
  | _ => false

/-- Specification-side neighbour count: the number of points `q` in
`surrounding_points p` such that `at(board, q)` is a mine. -/
def mineNeighbors (b : Board) (p : Point) : Nat :=
  ((surrounding_points p).filter (fun q => isMineAt b q)).length

/-- Total number of mine cells in the grid. -/
def mineCells (b : Board) : Nat :=
  (b.map.map (fun row => row.countP isMine)).sum

/-- The row-major grid built from a total cell function, the shape every
grid comprehension in the source produces. -/
def gridMap (w h : Nat) (g : Nat → Nat → MapElement) : List (List MapElement) :=
  (List.range h).map (fun y => (List.range w).map (fun x => g x y))

/-- All grid coordinates of a `w × h` board, row-major. -/
def gridPoints (w h : Nat) : List Point :=
  ((List.range h).map (fun y => (List.range w).map (fun x => Point.new x y))).flatten

/-- The cell `numbers_on_board` computes at grid position `(x, y)` (the
default arm stands for the `unreachable!()` branch and is never relevant
on a board without `Number` cells). -/
def annCell (b : Board) (x y : Nat) : MapElement :=
  match b.at? (Point.new x y) with
  | some (MapElement.Mine _) => MapElement.Mine false
  | some (MapElement.Empty _) =>
      if countMines b (Point.new x y) = 0 then MapElement.Empty false
      else MapElement.Number false (countMines b (Point.new x y))
  | _ => MapElement.Empty false

/-- The cell with its `open` flag set, variant and count kept. -/
def setRevealed : MapElement → MapElement
  | MapElement.Mine _ => MapElement.Mine true
  | MapElement.Empty _ => MapElement.Empty true
  | MapElement.Number _ c => MapElement.Number true c

/-- The cell's `open` flag. -/
def isOpened : MapElement → Bool
  | MapElement.Mine o => o
  | MapElement.Empty o => o
  | MapElement.Number o _ => o

/-- `create_board` terminates on these arguments: some amount of fuel is
enough for the rejection-sampling loop to finish. -/
def create_board_terminates (w h m : Nat) (s : Nat → Nat) : Prop :=
  ∃ fuel, (create_board w h m s fuel).isSome = true

/-- Shorthand for an unrevealed mine cell (test fixtures). -/
def cM : MapElement := MapElement.Mine false

/-- Shorthand for an unrevealed blank cell (test fixtures). -/
def cE : MapElement := MapElement.Empty false

/-- Shorthand for an unrevealed hint cell (test fixtures). -/
def cN (c : Int) : MapElement := MapElement.Number false c

/-- The repository's 5×4 fixture board with mines on the diagonal. -/
def bDiag : Board :=
  ⟨[[cM, cE, cE, cE, cE], [cE, cM, cE, cE, cE],
    [cE, cE, cM, cE, cE], [cE, cE, cE, cM, cE]], 5, 4, 4⟩

/-- The annotated form of `bDiag`, the repository's golden fixture. -/
def bDiagAnn : Board :=
  ⟨[[cM, cN 2, cN 1, cE, cE], [cN 2, cM, cN 2, cN 1, cE],
    [cN 1, cN 2, cM, cN 2, cN 1], [cE, cN 1, cN 2, cM, cN 1]], 5, 4, 4⟩

/-- A 1×1 board holding one unrevealed blank cell. -/
def b11E : Board := ⟨[[MapElement.Empty false]], 1, 1, 0⟩

/-- A 1×1 board holding one revealed blank cell. -/
def b11EO : Board := ⟨[[MapElement.Empty true]], 1, 1, 0⟩

/-- A 1×1 board holding one hint cell. -/
def bNum11 : Board := ⟨[[MapElement.Number false 1]], 1, 1, 0⟩
/-! ### `mapOpt` infrastructure -/

/-- `mapOpt` succeeds with the pointwise values when the function succeeds
on every element. -/
theorem mapOpt_eq_map_of_some {α β : Type} (f : α → Option β) (g : α → β) :
    ∀ l : List α, (∀ a ∈ l, f a = some (g a)) → mapOpt f l = some (l.map g)
  | [], _ => rfl
  | a :: l, h => by
    simp [mapOpt, h a (List.mem_cons_self a l),
      mapOpt_eq_map_of_some f g l (fun a' ha' => h a' (List.mem_cons_of_mem a ha'))]

/-- `mapOpt` succeeds exactly when the function succeeds on every element. -/
theorem mapOpt_isSome_iff {α β : Type} (f : α → Option β) (l : List α) :
    (mapOpt f l).isSome = true ↔ ∀ a ∈ l, (f a).isSome = true := by
  induction l with
  | nil => simp [mapOpt]
  | cons a l ih =>
    cases hfa : f a with
    | none => simp [mapOpt, hfa]
    | some b =>
      cases hl : mapOpt f l with
      | none => simp [mapOpt, hfa, hl, ← ih]
      | some bs => simp [mapOpt, hfa, hl, ← ih]

/-- A successful `mapOpt` preserves the length. -/
theorem mapOpt_some_length {α β : Type} (f : α → Option β) :
    ∀ (l : List α) (l' : List β), mapOpt f l = some l' → l'.length = l.length
  | [], l', h => by
    cases h
    rfl
  | a :: l, l', h => by
    unfold mapOpt at h
    cases hfa : f a with
    | none => rw [hfa] at h; cases h
    | some b =>
      rw [hfa] at h
      cases hl : mapOpt f l with
      | none => rw [hl] at h; cases h
      | some bs =>
        rw [hl] at h
        cases h
        simp [mapOpt_some_length f l bs hl]

/-- Every element of a successful `mapOpt` result comes from an element of
the input list. -/
theorem mapOpt_some_mem {α β : Type} (f : α → Option β) :
    ∀ (l : List α) (l' : List β), mapOpt f l = some l' →
      ∀ b ∈ l', ∃ a ∈ l, f a = some b
  | [], l', h => by
    cases h
    intro b hb
    cases hb
  | a :: l, l', h => by
    unfold mapOpt at h
    cases hfa : f a with
    | none => rw [hfa] at h; cases h
    | some b =>
      rw [hfa] at h
      cases hl : mapOpt f l with
      | none => rw [hl] at h; cases h
      | some bs =>
        rw [hl] at h
        cases h
        intro b' hb'
        rcases List.mem_cons.mp hb' with hb' | hb'
        · exact ⟨a, List.mem_cons_self a l, hb' ▸ hfa⟩
        · obtain ⟨a', ha', hfa'⟩ := mapOpt_some_mem f l bs hl b' hb'
          exact ⟨a', List.mem_cons_of_mem a ha', hfa'⟩

/-! ### `Board.at?` and `getCell` -/

/-- Out of bounds means `at` returns `none`. -/
theorem at?_eq_none_of_not_inB (b : Board) (p : Point) (h : ¬ b.InB p) :
    b.at? p = none := by
  unfold Board.at?
  rw [if_pos]
  unfold Board.InB at h
  omega

/-- A successful `at` lookup implies the point is in bounds. -/
theorem inB_of_at?_some (b : Board) (p : Point) (e : MapElement)
    (h : b.at? p = some e) : b.InB p := by
  by_contra h'
  rw [at?_eq_none_of_not_inB b p h'] at h
  cases h

/-- On a well-formed board, `at` at an in-bounds point returns the stored
cell. -/
theorem at?_eq_getCell (b : Board) (hwf : b.WellFormed) (p : Point)
    (hin : b.InB p) : b.at? p = some (getCell b p.x.toNat p.y.toNat) := by
  obtain ⟨hx0, hx, hy0, hy⟩ := hin
  have hml : b.map.length = b.height := hwf.1
  have hyl : p.y.toNat < b.map.length := by omega
  have hrl : (b.map[p.y.toNat]).length = b.width :=
    hwf.2 _ (b.map.getElem_mem hyl)
  have hxl : p.x.toNat < (b.map[p.y.toNat]).length := by omega
  unfold Board.at?
  rw [if_neg (by omega)]
  rw [List.getElem?_eq_getElem hyl]
  simp only [Option.some_bind]
  rw [List.getElem?_eq_getElem hxl]
  unfold getCell
  simp [List.getD_eq_getElem?_getD, List.getElem?_eq_getElem hyl,
    List.getElem?_eq_getElem hxl]

/-! ### Grid comprehension lemmas -/

/-- A board built from `gridMap` is well-formed. -/
theorem gridMap_wf (w h m : Nat) (g : Nat → Nat → MapElement) :
    (Board.mk (gridMap w h g) w h m).WellFormed := by
  constructor
  · simp [gridMap]
  · intro row hrow
    simp only [gridMap, List.mem_map] at hrow
    obtain ⟨y, _, rfl⟩ := hrow
    simp

/-- The stored cell of a `gridMap` board is the generating function's value. -/
theorem getCell_gridMap (w h m : Nat) (g : Nat → Nat → MapElement)
    (x y : Nat) (hx : x < w) (hy : y < h) :
    getCell (Board.mk (gridMap w h g) w h m) x y = g x y := by
  simp [getCell, gridMap, List.getD_eq_getElem?_getD, List.getElem?_map,
    List.getElem?_range, hx, hy]

/-- `at` on a `gridMap` board at an in-bounds point. -/
theorem at?_gridMap (w h m : Nat) (g : Nat → Nat → MapElement) (p : Point)
    (hin : (Board.mk (gridMap w h g) w h m).InB p) :
    (Board.mk (gridMap w h g) w h m).at? p = some (g p.x.toNat p.y.toNat) := by
  rw [at?_eq_getCell _ (gridMap_wf w h m g) p hin]
  obtain ⟨hx0, hx, hy0, hy⟩ := hin
  have hx' : p.x < (w : Int) := hx
  have hy' : p.y < (h : Int) := hy
  rw [getCell_gridMap w h m g _ _ (by omega) (by omega)]

/-- `mkRowsM` builds the `gridMap` grid when every in-bounds cell
expression succeeds. -/
theorem mkRowsM_eq_gridMap (w h : Nat) (f : Nat → Nat → Option MapElement)
    (g : Nat → Nat → MapElement)
    (hfg : ∀ x y, x < w → y < h → f x y = some (g x y)) :
    mkRowsM w h f = some (gridMap w h g) := by
  unfold mkRowsM gridMap
  apply mapOpt_eq_map_of_some
  intro y hy
  apply mapOpt_eq_map_of_some
  intro x hx
  exact hfg x y (List.mem_range.mp hx) (List.mem_range.mp hy)

/-- A successful `mkRowsM` means every in-bounds cell expression succeeded. -/
theorem mkRowsM_isSome_imp (w h : Nat) (f : Nat → Nat → Option MapElement)
    (hs : (mkRowsM w h f).isSome = true) :
    ∀ x y, x < w → y < h → (f x y).isSome = true := by
  intro x y hx hy
  rw [mkRowsM, mapOpt_isSome_iff] at hs
  have := hs y (List.mem_range.mpr hy)
  rw [mapOpt_isSome_iff] at this
  exact this x (List.mem_range.mpr hx)

/-- A successful `mkRowsM` has the right row and column counts. -/
theorem mkRowsM_some_shape (w h : Nat) (f : Nat → Nat → Option MapElement)
    (rows : List (List MapElement)) (hrows : mkRowsM w h f = some rows) :
    rows.length = h ∧ ∀ row ∈ rows, row.length = w := by
  unfold mkRowsM at hrows
  constructor
  · rw [mapOpt_some_length _ _ _ hrows]
    simp
  · intro row hrow
    obtain ⟨y, _, hfy⟩ := mapOpt_some_mem _ _ _ hrows row hrow
    rw [mapOpt_some_length _ _ _ hfy]
    simp

/-! ### Membership of stored cells -/

/-- Every stored in-bounds cell belongs to some row of the grid. -/
theorem getCell_mem (b : Board) (hwf : b.WellFormed) (x y : Nat)
    (hx : x < b.width) (hy : y < b.height) :
    ∃ row ∈ b.map, getCell b x y ∈ row := by
  have hml : b.map.length = b.height := hwf.1
  have hyl : y < b.map.length := by omega
  have hrl : (b.map[y]).length = b.width := hwf.2 _ (b.map.getElem_mem hyl)
  have hxl : x < (b.map[y]).length := by omega
  refine ⟨b.map[y], b.map.getElem_mem hyl, ?_⟩
  have hcell : getCell b x y = (b.map[y])[x] := by
    unfold getCell
    simp [List.getD_eq_getElem?_getD, List.getElem?_eq_getElem hyl,
      List.getElem?_eq_getElem hxl]
  rw [hcell]
  exact (b.map[y]).getElem_mem hxl

/-- On a board without `Number` cells, every stored in-bounds cell is a
mine or a blank. -/
theorem noNumbers_getCell (b : Board) (hwf : b.WellFormed)
    (hnn : noNumbers b) (x y : Nat) (hx : x < b.width) (hy : y < b.height) :
    isMineOrEmpty (getCell b x y) = true := by
  obtain ⟨row, hrow, hmem⟩ := getCell_mem b hwf x y hx hy
  exact hnn row hrow _ hmem

/-! ### Points and neighbourhoods -/

/-- Rebuilding a point from the truncations of nonnegative coordinates. -/
theorem point_new_toNat (p : Point) (hx0 : 0 ≤ p.x) (hy0 : 0 ≤ p.y) :
    Point.new p.x.toNat p.y.toNat = p := by
  unfold Point.new
  cases p with
  | mk x y => simp_all [Int.toNat_of_nonneg]

/-- Grid coordinates cast to an in-bounds point. -/
theorem inB_new (b : Board) (x y : Nat) (hx : x < b.width)
    (hy : y < b.height) : b.InB (Point.new x y) := by
  unfold Board.InB Point.new
  simp only []
  refine ⟨by omega, by omega, by omega, by omega⟩

/-- The closed form of `surrounding_points`: always exactly the 8 points of
the 3×3 block around `p` without `p`, x varying in the outer dimension. -/
theorem surrounding_points_eq (p : Point) :
    surrounding_points p =
      [⟨p.x - 1, p.y - 1⟩, ⟨p.x - 1, p.y⟩, ⟨p.x - 1, p.y + 1⟩,
       ⟨p.x, p.y - 1⟩, ⟨p.x, p.y + 1⟩,
       ⟨p.x + 1, p.y - 1⟩, ⟨p.x + 1, p.y⟩, ⟨p.x + 1, p.y + 1⟩] := by
  have h1 : ∀ a : Int, ¬(a = a - 1) := by intro a; omega
  have h2 : ∀ a : Int, ¬(a = a + 1) := by intro a; omega
  simp [surrounding_points, h1, h2]

/-- A point always has exactly 8 surrounding points. -/
theorem surrounding_points_length (p : Point) :
    (surrounding_points p).length = 8 := by
  rw [surrounding_points_eq]
  rfl

/-- The source's neighbour sum is the specification's neighbour count. -/
theorem countMines_eq_mineNeighbors (b : Board) (p : Point) :
    countMines b p = (mineNeighbors b p : Int) := by
  unfold countMines mineNeighbors
  generalize surrounding_points p = l
  induction l with
  | nil => rfl
  | cons q l ih =>
    simp only [List.map_cons, List.sum_cons, List.filter_cons]
    rw [ih]
    cases hq : b.at? q with
    | none => simp [isMineAt, hq]
    | some e =>
      cases e with
      | Mine o =>
        simp [isMineAt, hq]
        omega
      | Empty o => simp [isMineAt, hq]
      | Number o c => simp [isMineAt, hq]

/-! ### `Board.replace` -/

/-- On a well-formed board, `replace` always succeeds and rebuilds the grid
pointwise (for any point, in bounds or not). -/
theorem replace_eq (b : Board) (hwf : b.WellFormed) (p : Point)
    (el : MapElement) :
    b.replace p el = some (Board.mk (gridMap b.width b.height
      (fun x y => if Point.new x y = p then el else getCell b x y))
      b.width b.height b.mines) := by
  have hfg : ∀ x y, x < b.width → y < b.height →
      (if Point.new x y = p then some el else b.at? (Point.new x y)) =
      some (if Point.new x y = p then el else getCell b x y) := by
    intro x y hx hy
    by_cases hpt : Point.new x y = p
    · simp [hpt]
    · have hin : b.InB (Point.new x y) := inB_new b x y hx hy
      rw [if_neg hpt, if_neg hpt, at?_eq_getCell b hwf _ hin]
      simp [Point.new]
  unfold Board.replace
  rw [mkRowsM_eq_gridMap _ _ _ _ hfg]
  rfl

/-- Full description of `replace` at an in-bounds point: success, all
fields preserved, the target cell swapped, every other cell unchanged. -/
theorem replace_spec (b : Board) (hwf : b.WellFormed) (p : Point)
    (el : MapElement) (hin : b.InB p) :
    ∃ b', b.replace p el = some b' ∧ b'.WellFormed ∧
      b'.width = b.width ∧ b'.height = b.height ∧ b'.mines = b.mines ∧
      b'.at? p = some el ∧ ∀ q, q ≠ p → b'.at? q = b.at? q := by
  refine ⟨_, replace_eq b hwf p el, gridMap_wf _ _ _ _, rfl, rfl, rfl, ?_, ?_⟩
  · rw [at?_gridMap _ _ _ _ p hin]
    obtain ⟨hx0, hx, hy0, hy⟩ := hin
    rw [if_pos (point_new_toNat p hx0 hy0)]
  · intro q hq
    by_cases hinq : b.InB q
    · rw [at?_gridMap _ _ _ _ q hinq, at?_eq_getCell b hwf q hinq]
      obtain ⟨hx0, hx, hy0, hy⟩ := hinq
      rw [point_new_toNat q hx0 hy0, if_neg hq]
    · rw [at?_eq_none_of_not_inB b q hinq]
      exact at?_eq_none_of_not_inB _ q hinq

/-- `replace` at an out-of-bounds point on a well-formed board does not
panic: it returns a board identical to the input. -/
theorem replace_out_of_bounds (b : Board) (hwf : b.WellFormed) (p : Point)
    (el : MapElement) (hout : ¬ b.InB p) :
    b.replace p el = some b := by
  rw [replace_eq b hwf p el]
  have hmap : gridMap b.width b.height
      (fun x y => if Point.new x y = p then el else getCell b x y) = b.map := by
    have hml : b.map.length = b.height := hwf.1
    apply List.ext_getElem
    · simp [gridMap, hml]
    · intro y hy1 hy2
      have hyh : y < b.height := by
        simpa [gridMap] using hy1
      have hrl : (b.map[y]).length = b.width := hwf.2 _ (b.map.getElem_mem hy2)
      have hrow : (gridMap b.width b.height
          (fun x y => if Point.new x y = p then el else getCell b x y))[y] =
          (List.range b.width).map (fun x =>
            if Point.new x y = p then el else getCell b x y) := by
        simp [gridMap, List.getElem_map, hyh]
      rw [hrow]
      apply List.ext_getElem
      · simp [hrl]
      · intro x hx1 hx2
        have hxw : x < b.width := by
          simpa using hx1
        have hne : Point.new x y ≠ p := by
          intro hcontra
          exact hout (hcontra ▸ inB_new b x y hxw hyh)
        have hcell : getCell b x y = (b.map[y])[x] := by
          unfold getCell
          simp [List.getD_eq_getElem?_getD, List.getElem?_eq_getElem hy2,
            List.getElem?_eq_getElem (show x < (b.map[y]).length by omega)]
        simp [hxw, hne, hcell]
  rw [hmap]

/-! ### `numbers_on_board` -/

/-- On a well-formed board without `Number` cells, `numbers_on_board`
succeeds and produces exactly the `annCell` grid. -/
theorem numbers_eq (b : Board) (hwf : b.WellFormed) (hnn : noNumbers b) :
    numbers_on_board b =
      some (Board.mk (gridMap b.width b.height (annCell b))
        b.width b.height b.mines) := by
  have hfg : ∀ x y, x < b.width → y < b.height →
      (match b.at? (Point.new x y) with
       | some (MapElement.Mine _) => some (MapElement.Mine false)
       | some (MapElement.Empty _) =>
         some (if countMines b (Point.new x y) = 0 then MapElement.Empty false
               else MapElement.Number false (countMines b (Point.new x y)))
       | _ => (none : Option MapElement)) = some (annCell b x y) := by
    intro x y hx hy
    have hin : b.InB (Point.new x y) := inB_new b x y hx hy
    have hat : b.at? (Point.new x y) = some (getCell b x y) := by
      rw [at?_eq_getCell b hwf _ hin]
      simp [Point.new]
    have hme := noNumbers_getCell b hwf hnn x y hx hy
    unfold annCell
    rw [hat]
    cases hc : getCell b x y with
    | Mine o => rfl
    | Empty o => rfl
    | Number o c =>
      rw [hc] at hme
      simp [isMineOrEmpty] at hme
  unfold numbers_on_board
  rw [mkRowsM_eq_gridMap _ _ _ _ hfg]
  rfl

/-- Annotation keeps the mine layout: a point holds a mine in the
annotated grid exactly when it does in the input grid. -/
theorem isMineAt_annBoard (b : Board) (hwf : b.WellFormed) (q : Point) :
    isMineAt (Board.mk (gridMap b.width b.height (annCell b))
      b.width b.height b.mines) q = isMineAt b q := by
  by_cases hin : b.InB q
  · have h1 := at?_gridMap b.width b.height b.mines (annCell b) q hin
    have h2 := at?_eq_getCell b hwf q hin
    unfold isMineAt
    rw [h1, h2]
    obtain ⟨hx0, hx, hy0, hy⟩ := hin
    unfold annCell
    rw [point_new_toNat q hx0 hy0, h2]
    cases getCell b q.x.toNat q.y.toNat with
    | Mine o => rfl
    | Empty o =>
      by_cases hcm : countMines b q = 0
      · simp [hcm]
      · simp [hcm]
    | Number o c => rfl
  · unfold isMineAt
    rw [at?_eq_none_of_not_inB b q hin]
    rw [at?_eq_none_of_not_inB (Board.mk (gridMap b.width b.height
      (annCell b)) b.width b.height b.mines) q hin]

/-- Annotation keeps every neighbour-mine count. -/
theorem mineNeighbors_annBoard (b : Board) (hwf : b.WellFormed) (p : Point) :
    mineNeighbors (Board.mk (gridMap b.width b.height (annCell b))
      b.width b.height b.mines) p = mineNeighbors b p := by
  unfold mineNeighbors
  congr 1
  apply List.filter_congr
  intro q _
  exact isMineAt_annBoard b hwf q

/-! ### Counting mines on a generated board -/

/-- Membership in the coordinate grid is exactly in-boundedness. -/
theorem mem_gridPoints (w h : Nat) (q : Point) :
    q ∈ gridPoints w h ↔
      0 ≤ q.x ∧ q.x < (w : Int) ∧ 0 ≤ q.y ∧ q.y < (h : Int) := by
  unfold gridPoints
  simp only [List.mem_flatten, List.mem_map, List.mem_range]
  constructor
  · rintro ⟨row, ⟨y, hy, rfl⟩, hq⟩
    simp only [List.mem_map, List.mem_range] at hq
    obtain ⟨x, hx, rfl⟩ := hq
    unfold Point.new
    simp only []
    refine ⟨by omega, by omega, by omega, by omega⟩
  · rintro ⟨hx0, hx, hy0, hy⟩
    refine ⟨(List.range w).map (fun x => Point.new x q.y.toNat),
      ⟨q.y.toNat, by omega, rfl⟩, ?_⟩
    simp only [List.mem_map, List.mem_range]
    exact ⟨q.x.toNat, by omega, point_new_toNat q hx0 hy0⟩

/-- The coordinate grid has no duplicate points. -/
theorem gridPoints_nodup (w h : Nat) : (gridPoints w h).Nodup := by
  unfold gridPoints
  rw [List.nodup_flatten]
  constructor
  · intro l hl
    simp only [List.mem_map, List.mem_range] at hl
    obtain ⟨y, hy, rfl⟩ := hl
    refine List.Nodup.map ?_ (List.nodup_range w)
    intro a b hab
    unfold Point.new at hab
    rw [Point.mk.injEq] at hab
    omega
  · rw [List.pairwise_map]
    refine List.Pairwise.imp ?_ (List.pairwise_lt_range h)
    intro y1 y2 hlt q hq1 hq2
    simp only [List.mem_map, List.mem_range] at hq1 hq2
    obtain ⟨x1, hx1, rfl⟩ := hq1
    obtain ⟨x2, hx2, heq⟩ := hq2
    unfold Point.new at heq
    rw [Point.mk.injEq] at heq
    omega

/-- The number of mines on the generated grid is the number of grid points
lying in the mine set. -/
theorem mineCells_grid (w h m : Nat) (pts : List Point) :
    mineCells (Board.mk (gridMap w h (fun x y =>
        if Point.new x y ∈ pts then MapElement.Mine false
        else MapElement.Empty false)) w h m) =
      (gridPoints w h).countP (fun q => decide (q ∈ pts)) := by
  unfold mineCells gridMap gridPoints
  rw [List.countP_flatten]
  simp only [List.map_map]
  congr 1
  apply List.map_congr_left
  intro y _
  simp only [Function.comp]
  rw [List.countP_map, List.countP_map]
  apply List.countP_congr
  intro x _
  simp only [Function.comp]
  by_cases hmem : Point.new x y ∈ pts
  · simp [hmem, isMine]
  · simp [hmem, isMine]

/-- Counting membership of a duplicate-free in-bounds point set over the
whole grid recovers the set's size. -/
theorem countP_gridPoints_eq_length (w h : Nat) (pts : List Point)
    (hnd : pts.Nodup) (hsub : ∀ p ∈ pts, p ∈ gridPoints w h) :
    (gridPoints w h).countP (fun q => decide (q ∈ pts)) = pts.length := by
  rw [List.countP_eq_length_filter]
  have hperm : List.Perm ((gridPoints w h).filter (fun q => decide (q ∈ pts))) pts := by
    apply List.perm_of_nodup_nodup_toFinset_eq
    · exact (gridPoints_nodup w h).filter _
    · exact hnd
    · ext q
      simp only [List.mem_toFinset, List.mem_filter, decide_eq_true_eq]
      exact ⟨fun hq => hq.2, fun hq => ⟨hsub q hq, hq⟩⟩
  exact hperm.length_eq

/-- What a successful run of the mine-placement loop guarantees: no
duplicates, exactly `m` points, and every point either given or drawn. -/
theorem placeMines_sound (s : Nat → Nat) (m : Nat) :
    ∀ (fuel i : Nat) (acc pts : List Point),
      placeMines s m fuel i acc = some pts → acc.Nodup →
      pts.Nodup ∧ pts.length = m ∧ ∀ p ∈ pts, p ∈ acc ∨ ∃ k, p = drawPt s k
  | 0, i, acc, pts, h, hnd => by
    unfold placeMines at h
    by_cases hlen : acc.length = m
    · rw [if_pos hlen] at h
      cases h
      exact ⟨hnd, hlen, fun p hp => Or.inl hp⟩
    · rw [if_neg hlen] at h
      cases h
  | fuel + 1, i, acc, pts, h, hnd => by
    unfold placeMines at h
    by_cases hlen : acc.length = m
    · rw [if_pos hlen] at h
      cases h
      exact ⟨hnd, hlen, fun p hp => Or.inl hp⟩
    · rw [if_neg hlen] at h
      by_cases hmem : drawPt s i ∈ acc
      · rw [if_pos hmem] at h
        exact placeMines_sound s m fuel (i + 1) acc pts h hnd
      · rw [if_neg hmem] at h
        have hnd' : (acc ++ [drawPt s i]).Nodup :=
          ((List.perm_append_singleton (drawPt s i) acc).nodup_iff).mpr
            (List.nodup_cons.mpr ⟨hmem, hnd⟩)
        obtain ⟨hnd2, hlen2, hmem2⟩ :=
          placeMines_sound s m fuel (i + 1) (acc ++ [drawPt s i]) pts h hnd'
        refine ⟨hnd2, hlen2, fun p hp => ?_⟩
        rcases hmem2 p hp with hin | hk
        · rcases List.mem_append.mp hin with hin | hin
          · exact Or.inl hin
          · exact Or.inr ⟨i, List.mem_singleton.mp hin⟩
        · exact Or.inr hk

/-- The stored cell as a double list index. -/
theorem getCell_eq_getElem (b : Board) (y x : Nat) (hy : y < b.map.length)
    (hx : x < (b.map[y]).length) : getCell b x y = (b.map[y])[x] := by
  unfold getCell
  simp [List.getD_eq_getElem?_getD, List.getElem?_eq_getElem hy,
    List.getElem?_eq_getElem hx]

/-- `create_board` in `gridMap` form. -/
theorem create_board_eq (w h m : Nat) (s : Nat → Nat) (fuel : Nat) :
    create_board w h m s fuel = (placeMines s m fuel 0 []).map (fun pts =>
      Board.mk (gridMap w h (fun x y =>
        if Point.new x y ∈ pts then MapElement.Mine false
        else MapElement.Empty false)) w h m) := rfl

/-! ### Termination of the mine-placement loop -/

/-- The loop finishes within the given fuel whenever the points it was
given plus its upcoming draws contain at least `m` distinct points. -/
theorem placeMines_isSome_of_card (s : Nat → Nat) (m : Nat) :
    ∀ (fuel i : Nat) (acc : List Point), acc.Nodup → acc.length ≤ m →
      m ≤ (acc ++ (List.range fuel).map (fun j => drawPt s (i + j))).toFinset.card →
      (placeMines s m fuel i acc).isSome = true
  | 0, i, acc, hnd, hle, hcard => by
    rw [List.range_zero, List.map_nil, List.append_nil] at hcard
    rw [List.toFinset_card_of_nodup hnd] at hcard
    unfold placeMines
    rw [if_pos (by omega)]
    rfl
  | fuel + 1, i, acc, hnd, hle, hcard => by
    have hsplit : (List.range (fuel + 1)).map (fun j => drawPt s (i + j)) =
        drawPt s i :: (List.range fuel).map (fun j => drawPt s (i + 1 + j)) := by
      rw [List.range_succ_eq_map, List.map_cons, List.map_map]
      simp only [Nat.add_zero]
      congr 1
      apply List.map_congr_left
      intro j _
      simp only [Function.comp]
      congr 1
      omega
    rw [hsplit] at hcard
    unfold placeMines
    by_cases hlen : acc.length = m
    · rw [if_pos hlen]
      rfl
    · rw [if_neg hlen]
      by_cases hmem : drawPt s i ∈ acc
      · rw [if_pos hmem]
        apply placeMines_isSome_of_card s m fuel (i + 1) acc hnd hle
        have habsorb : (acc ++ drawPt s i ::
            (List.range fuel).map (fun j => drawPt s (i + 1 + j))).toFinset =
            (acc ++ (List.range fuel).map (fun j => drawPt s (i + 1 + j))).toFinset := by
          simp only [List.toFinset_append, List.toFinset_cons, Finset.union_insert]
          rw [Finset.insert_eq_self.mpr]
          exact Finset.mem_union_left _ (List.mem_toFinset.mpr hmem)
        rw [habsorb] at hcard
        exact hcard
      · rw [if_neg hmem]
        apply placeMines_isSome_of_card s m fuel (i + 1) (acc ++ [drawPt s i])
        · exact ((List.perm_append_singleton (drawPt s i) acc).nodup_iff).mpr
            (List.nodup_cons.mpr ⟨hmem, hnd⟩)
        · rw [List.length_append, List.length_singleton]
          omega
        · rw [List.append_assoc, List.singleton_append]
          exact hcard

/-- `create_board` returns within `K` loop iterations whenever the first
`K` draws of the random source contain at least `m` distinct points. -/
theorem create_board_isSome_of_draws (w h m : Nat) (s : Nat → Nat) (K : Nat)
    (hm : m ≤ ((List.range K).map (drawPt s)).toFinset.card) :
    (create_board w h m s K).isSome = true := by
  have h : (placeMines s m K 0 []).isSome = true := by
    apply placeMines_isSome_of_card s m K 0 [] List.nodup_nil (by simp)
    rw [List.nil_append]
    have heq : (List.range K).map (fun j => drawPt s (0 + j)) =
        (List.range K).map (drawPt s) := by
      apply List.map_congr_left
      intro j _
      congr 1
      omega
    rw [heq]
    exact hm
  rw [create_board_eq]
  cases hpm : placeMines s m K 0 [] with
  | none => rw [hpm] at h; simp at h
  | some pts => rfl

/-! ### Divergence on a constant random source -/

/-- Once `(0,0)` is chosen, a constant-zero source never makes progress. -/
theorem placeMines_const_stuck :
    ∀ fuel i, placeMines (fun _ => 0) 2 fuel i [⟨0, 0⟩] = none
  | 0, i => by
    unfold placeMines
    rw [if_neg (by decide)]
  | fuel + 1, i => by
    unfold placeMines
    rw [if_neg (by decide), if_pos (by simp [drawPt])]
    exact placeMines_const_stuck fuel (i + 1)

/-- With the constant-zero in-range source on a 2×2 board and 2 mines,
`create_board` never returns, whatever the fuel. -/
theorem create_board_const_none :
    ∀ fuel, create_board 2 2 2 (fun _ => 0) fuel = none
  | 0 => rfl
  | fuel + 1 => by
    rw [create_board_eq]
    have h : placeMines (fun _ => 0) 2 (fuel + 1) 0 [] = none := by
      unfold placeMines
      rw [if_neg (by decide), if_neg (by simp)]
      have hlist : ([] : List Point) ++ [drawPt (fun _ => 0) 0] = [⟨0, 0⟩] := by
        simp [drawPt]
      rw [hlist]
      exact placeMines_const_stuck fuel 1
    rw [h]
    rfl

/-! ### `open_item` -/

/-- `open_item` succeeds on an unrevealed non-mine cell, revealing exactly
that cell and keeping everything else (cells and fields) unchanged. -/
theorem open_item_some (b : Board) (hwf : b.WellFormed) (p : Point)
    (e : MapElement) (hat : b.at? p = some e) (hop : isOpened e = false)
    (hnm : isMine e = false) :
    ∃ b', open_item b p = some b' ∧ b'.WellFormed ∧
      b'.width = b.width ∧ b'.height = b.height ∧ b'.mines = b.mines ∧
      b'.at? p = some (setRevealed e) ∧ ∀ q, q ≠ p → b'.at? q = b.at? q := by
  have hin := inB_of_at?_some b p e hat
  cases e with
  | Mine o => simp [isMine] at hnm
  | Empty o =>
    cases o with
    | false =>
      obtain ⟨b', hrep, hwf', hw, hh, hm, hats, hoth⟩ :=
        replace_spec b hwf p (MapElement.Empty true) hin
      refine ⟨b', ?_, hwf', hw, hh, hm, hats, hoth⟩
      unfold open_item
      rw [hat]
      exact hrep
    | true => simp [isOpened] at hop
  | Number o c =>
    cases o with
    | false =>
      obtain ⟨b', hrep, hwf', hw, hh, hm, hats, hoth⟩ :=
        replace_spec b hwf p (MapElement.Number true c) hin
      refine ⟨b', ?_, hwf', hw, hh, hm, hats, hoth⟩
      unfold open_item
      rw [hat]
      exact hrep
    | true => simp [isOpened] at hop

/-- The exact failure condition of `open_item` on a well-formed board:
absent cell, mine, or already-revealed cell. -/
theorem open_item_none_iff (b : Board) (hwf : b.WellFormed) (p : Point) :
    open_item b p = none ↔
      (b.at? p = none ∨ (∃ o, b.at? p = some (MapElement.Mine o)) ∨
       (∃ e, b.at? p = some e ∧ isOpened e = true)) := by
  unfold open_item
  cases hat : b.at? p with
  | none => simp
  | some e =>
    cases e with
    | Mine o => simp [isOpened]
    | Empty o =>
      cases o with
      | false =>
        have hin : b.InB p := inB_of_at?_some b p _ hat
        obtain ⟨b', hrep, _⟩ :=
          replace_spec b hwf p (MapElement.Empty true) hin
        simp [hrep, isOpened]
      | true => simp [isOpened]
    | Number o c =>
      cases o with
      | false =>
        have hin : b.InB p := inB_of_at?_some b p _ hat
        obtain ⟨b', hrep, _⟩ :=
          replace_spec b hwf p (MapElement.Number true c) hin
        simp [hrep, isOpened]
      | true => simp [isOpened]

/-- A second `open_item` on the same point always fails. -/
theorem open_item_twice (b : Board) (hwf : b.WellFormed) (p : Point)
    (b' : Board) (h : open_item b p = some b') : open_item b' p = none := by
  unfold open_item at h
  cases hat : b.at? p with
  | none => rw [hat] at h; cases h
  | some e =>
    rw [hat] at h
    have hin := inB_of_at?_some b p e hat
    cases e with
    | Mine o => cases h
    | Empty o =>
      cases o with
      | false =>
        obtain ⟨b'', hrep, _, _, _, _, hats, _⟩ :=
          replace_spec b hwf p (MapElement.Empty true) hin
        rw [hrep] at h
        cases h
        unfold open_item
        rw [hats]
      | true => cases h
    | Number o c =>
      cases o with
      | false =>
        obtain ⟨b'', hrep, _, _, _, _, hats, _⟩ :=
          replace_spec b hwf p (MapElement.Number true c) hin
        have h2 : b.replace p (MapElement.Number true c) = some b' := h
        rw [hrep] at h2
        cases h2
        unfold open_item
        rw [hats]
      | true => cases h

/-! ### Failure analysis of `numbers_on_board` -/

/-- If no in-bounds lookup yields a `Number`, the grid holds none. -/
theorem noNumbers_of_no_number_at (b : Board) (hwf : b.WellFormed)
    (h : ∀ p o c, b.at? p ≠ some (MapElement.Number o c)) : noNumbers b := by
  intro row hrow e he
  obtain ⟨y, hy, rfl⟩ := List.mem_iff_getElem.mp hrow
  obtain ⟨x, hx, rfl⟩ := List.mem_iff_getElem.mp he
  have hyh : y < b.height := by
    have := hwf.1
    omega
  have hxw : x < b.width := by
    have := hwf.2 _ (b.map.getElem_mem hy)
    omega
  have hat : b.at? (Point.new x y) = some (getCell b x y) := by
    rw [at?_eq_getCell b hwf _ (inB_new b x y hxw hyh)]
    simp [Point.new]
  have hcell : getCell b x y = (b.map[y])[x] := getCell_eq_getElem b y x hy hx
  cases hcase : (b.map[y])[x] with
  | Mine o => rfl
  | Empty o => rfl
  | Number o c =>
    exfalso
    apply h (Point.new x y) o c
    rw [hat, hcell, hcase]

/-- The fields and shape of a successful annotation. -/
theorem numbers_wf (b : Board) (b' : Board)
    (h : numbers_on_board b = some b') :
    b'.WellFormed ∧ b'.width = b.width ∧ b'.height = b.height ∧
      b'.mines = b.mines := by
  unfold numbers_on_board at h
  rw [Option.map_eq_some'] at h
  obtain ⟨rows, hrows, hb'⟩ := h
  obtain ⟨hlen, hwid⟩ := mkRowsM_some_shape _ _ _ rows hrows
  cases hb'
  exact ⟨⟨hlen, hwid⟩, rfl, rfl, rfl⟩

/-- `numbers_on_board` hits `unreachable!()` exactly when the board holds a
`Number` cell at some (necessarily in-bounds) point. -/
theorem numbers_none_iff (b : Board) (hwf : b.WellFormed) :
    numbers_on_board b = none ↔
      ∃ p o c, b.at? p = some (MapElement.Number o c) := by
  constructor
  · intro hnone
    by_contra hno
    push_neg at hno
    have hnn : noNumbers b := noNumbers_of_no_number_at b hwf hno
    rw [numbers_eq b hwf hnn] at hnone
    cases hnone
  · rintro ⟨p, o, c, hat⟩
    cases hres : numbers_on_board b with
    | none => rfl
    | some b2 =>
      exfalso
      obtain ⟨hx0, hx, hy0, hy⟩ := inB_of_at?_some b p _ hat
      unfold numbers_on_board at hres
      rw [Option.map_eq_some'] at hres
      obtain ⟨rows, hrows, _⟩ := hres
      have hsome := mkRowsM_isSome_imp _ _ _ (by rw [hrows]; rfl)
        p.x.toNat p.y.toNat (by omega) (by omega)
      rw [point_new_toNat p (by omega) (by omega), hat] at hsome
      simp at hsome

/-! ### Upstream unit tests, re-verified against the embedding -/

/-- Mirror of the repository test `test_create_board`. -/
theorem upstream_test_create_board :
    create_board 5 4 4 (fun k => [0, 0, 1, 1, 2, 2, 3, 3].getD k 0) 4 =
      some bDiag := by
  decide

/-- Mirror of the repository test `test_create_board_without_repeated_mines`:
a duplicate draw is rejected and redrawn. -/
theorem upstream_test_create_board_dedup :
    create_board 5 4 4 (fun k => [0, 0, 1, 1, 0, 0, 2, 2, 3, 3].getD k 0) 5 =
      some bDiag := by
  decide

/-- Mirror of the repository test `test_numbers_on_board`. -/
theorem upstream_test_numbers_on_board :
    numbers_on_board bDiag = some bDiagAnn := by
  decide

/-- Mirror of the repository test `test_surrounding_points`. -/
theorem upstream_test_surrounding_points :
    surrounding_points ⟨1, 10⟩ =
      [⟨0, 9⟩, ⟨0, 10⟩, ⟨0, 11⟩, ⟨1, 9⟩, ⟨1, 11⟩, ⟨2, 9⟩, ⟨2, 10⟩, ⟨2, 11⟩] := by
  decide

/-- Mirror of the repository test `test_open_item`. -/
theorem upstream_test_open_item :
    (numbers_on_board ⟨[[cM, cE, cE, cE, cE], [cE, cM, cE, cE, cE]], 5, 2, 4⟩).bind
      (fun b => open_item b (Point.new 1 0)) =
    some ⟨[[cM, MapElement.Number true 2, cN 1, cE, cE],
           [cN 2, cM, cN 1, cE, cE]], 5, 2, 4⟩ := by
  decide

/-! ### The claims -/

/-- C9: for every point `p`, `surrounding_points p` returns exactly the 8
points of the 3×3 block centred on `p` excluding `p` itself, x iterated as
the outer dimension and y as the inner one, and in particular the
documented value at `(1, 10)`. -/
theorem C9_surrounding_points_spec :
    (∀ p : Point, surrounding_points p =
      [⟨p.x - 1, p.y - 1⟩, ⟨p.x - 1, p.y⟩, ⟨p.x - 1, p.y + 1⟩,
       ⟨p.x, p.y - 1⟩, ⟨p.x, p.y + 1⟩,
       ⟨p.x + 1, p.y - 1⟩, ⟨p.x + 1, p.y⟩, ⟨p.x + 1, p.y + 1⟩]) ∧
    surrounding_points ⟨1, 10⟩ =
      [⟨0, 9⟩, ⟨0, 10⟩, ⟨0, 11⟩, ⟨1, 9⟩, ⟨1, 11⟩, ⟨2, 9⟩, ⟨2, 10⟩, ⟨2, 11⟩] :=
  ⟨surrounding_points_eq, by decide⟩

/-- C8: `at` returns the stored cell at column `p.x`, row `p.y` when the
point is in bounds and `none` (a normal value, not a panic) in every other
case, for any well-formed board. -/
theorem C8_at_spec (b : Board) (hwf : b.WellFormed) (p : Point) :
    (∀ _ : b.InB p, ∃ hyl : p.y.toNat < b.map.length,
      ∃ hxl : p.x.toNat < (b.map.get ⟨p.y.toNat, hyl⟩).length,
        b.at? p = some ((b.map.get ⟨p.y.toNat, hyl⟩).get ⟨p.x.toNat, hxl⟩)) ∧
    (¬ b.InB p → b.at? p = none) := by
  constructor
  · intro hin
    obtain ⟨hx0, hx, hy0, hy⟩ := hin
    have hml := hwf.1
    have hyl : p.y.toNat < b.map.length := by omega
    have hrl : (b.map.get ⟨p.y.toNat, hyl⟩).length = b.width :=
      hwf.2 _ (List.get_mem b.map p.y.toNat hyl)
    have hxl : p.x.toNat < (b.map.get ⟨p.y.toNat, hyl⟩).length := by omega
    refine ⟨hyl, hxl, ?_⟩
    rw [at?_eq_getCell b hwf p ⟨hx0, hx, hy0, hy⟩]
    congr 1
    rw [getCell_eq_getElem b p.y.toNat p.x.toNat hyl (by simpa using hxl)]
    simp [List.get_eq_getElem]
  · exact at?_eq_none_of_not_inB b p

/-- Witness for C8 at a concrete board and out-of-bounds points. -/
theorem C8_witness :
    bDiag.at? ⟨-1, 0⟩ = none ∧ bDiag.at? ⟨9, 0⟩ = none :=
  ⟨(C8_at_spec bDiag (by decide) ⟨-1, 0⟩).2 (by decide),
   (C8_at_spec bDiag (by decide) ⟨9, 0⟩).2 (by decide)⟩

/-- C5 counterexample: `replace` at an out-of-bounds point does not panic;
it returns normally with the board unchanged (the claim asserts the call
panics / reaches unreachable code). -/
theorem C5_counterexample :
    Board.replace b11E ⟨5, 5⟩ (MapElement.Mine true) = some b11E ∧
    (Board.replace b11E ⟨5, 5⟩ (MapElement.Mine true)).isSome = true :=
  ⟨by decide, by decide⟩

/-- C5 (amended): `replace` with an out-of-bounds point returns normally,
yielding a board identical to the input (no cell is replaced, since no
rebuilt coordinate equals the point and every lookup stays in bounds). -/
theorem C5_replace_oob (b : Board) (hwf : b.WellFormed) (p : Point)
    (el : MapElement) (hout : ¬ b.InB p) : b.replace p el = some b :=
  replace_out_of_bounds b hwf p el hout

/-- Witness for the amended C5. -/
theorem C5_witness :
    Board.replace b11E ⟨2, 3⟩ (MapElement.Mine true) = some b11E :=
  C5_replace_oob b11E (by decide) ⟨2, 3⟩ (MapElement.Mine true) (by decide)

/-- C3: opening an unrevealed blank or hint cell returns a new board where
only that cell's revealed flag is flipped (variant and count kept); all
other cells and the width/height/mines fields are unchanged. -/
theorem C3_open_spec (b : Board) (hwf : b.WellFormed) (p : Point)
    (h : b.at? p = some (MapElement.Empty false) ∨
         ∃ c, b.at? p = some (MapElement.Number false c)) :
    ∃ b', open_item b p = some b' ∧
      b'.width = b.width ∧ b'.height = b.height ∧ b'.mines = b.mines ∧
      (b.at? p = some (MapElement.Empty false) →
        b'.at? p = some (MapElement.Empty true)) ∧
      (∀ c, b.at? p = some (MapElement.Number false c) →
        b'.at? p = some (MapElement.Number true c)) ∧
      (∀ q, q ≠ p → b'.at? q = b.at? q) := by
  rcases h with hat | ⟨c, hat⟩
  · obtain ⟨b', hop, hwf', hw, hh, hm, hats, hoth⟩ :=
      open_item_some b hwf p (MapElement.Empty false) hat rfl rfl
    refine ⟨b', hop, hw, hh, hm, fun _ => hats, ?_, hoth⟩
    intro c hc
    rw [hat] at hc
    simp at hc
  · obtain ⟨b', hop, hwf', hw, hh, hm, hats, hoth⟩ :=
      open_item_some b hwf p (MapElement.Number false c) hat rfl rfl
    refine ⟨b', hop, hw, hh, hm, ?_, ?_, hoth⟩
    · intro hc
      rw [hat] at hc
      simp at hc
    · intro c' hc
      rw [hat] at hc
      simp only [Option.some.injEq, MapElement.Number.injEq] at hc
      rw [hc.2] at hats
      exact hats

/-- Witness for C3 on the annotated fixture board. -/
theorem C3_witness : (open_item bDiagAnn ⟨3, 0⟩).isSome = true := by
  obtain ⟨b', hop, _⟩ :=
    C3_open_spec bDiagAnn (by decide) ⟨3, 0⟩ (Or.inl (by decide))
  rw [hop]
  rfl

/-- C6: `open_item` reaches its fatal branch exactly when the looked-up
cell is absent, a mine, or already revealed; and a second open of the same
point always fails. -/
theorem C6_open_error_iff (b : Board) (hwf : b.WellFormed) (p : Point) :
    (open_item b p = none ↔
      (b.at? p = none ∨ (∃ o, b.at? p = some (MapElement.Mine o)) ∨
       (∃ e, b.at? p = some e ∧ isOpened e = true))) ∧
    (∀ b', open_item b p = some b' → open_item b' p = none) :=
  ⟨open_item_none_iff b hwf p, fun b' h => open_item_twice b hwf p b' h⟩

/-- Witness for C6: a second open of the single cell fails. -/
theorem C6_witness : open_item b11EO ⟨0, 0⟩ = none :=
  (C6_open_error_iff b11E (by decide) ⟨0, 0⟩).2 b11EO (by decide)

/-- C1: on any well-formed board whose cells are all mines or blanks (as
produced by `create_board`), annotation succeeds, keeps the dimensions and
mine count, maps every mine to `Mine{revealed:false}`, and maps every
non-mine cell at `p` to `Hint{revealed:false, count:n}` when
`n = mineNeighbors b p > 0` and to `Blank{revealed:false}` when `n = 0`. -/
theorem C1_annotate_spec (b : Board) (hwf : b.WellFormed)
    (hnn : noNumbers b) :
    ∃ b', numbers_on_board b = some b' ∧
      b'.width = b.width ∧ b'.height = b.height ∧ b'.mines = b.mines ∧
      (∀ p o, b.at? p = some (MapElement.Mine o) →
        b'.at? p = some (MapElement.Mine false)) ∧
      (∀ p o, b.at? p = some (MapElement.Empty o) →
        b'.at? p = some (if mineNeighbors b p = 0 then MapElement.Empty false
          else MapElement.Number false (mineNeighbors b p))) := by
  refine ⟨_, numbers_eq b hwf hnn, rfl, rfl, rfl, ?_, ?_⟩
  · intro p o hat
    have hin := inB_of_at?_some b p _ hat
    rw [at?_gridMap _ _ _ _ p hin]
    obtain ⟨hx0, hx, hy0, hy⟩ := hin
    unfold annCell
    rw [point_new_toNat p hx0 hy0, hat]
  · intro p o hat
    have hin := inB_of_at?_some b p _ hat
    rw [at?_gridMap _ _ _ _ p hin]
    obtain ⟨hx0, hx, hy0, hy⟩ := hin
    unfold annCell
    rw [point_new_toNat p hx0 hy0, hat, countMines_eq_mineNeighbors b p]
    by_cases hz : mineNeighbors b p = 0
    · simp [hz]
    · rw [if_neg (by exact_mod_cast hz), if_neg hz]

/-- Witness for C1 on the repository's fixture board. -/
theorem C1_witness : (numbers_on_board bDiag).isSome = true := by
  obtain ⟨b', hb', _⟩ := C1_annotate_spec bDiag (by decide) (by decide)
  rw [hb']
  rfl

/-- C4: every hint cell of an annotated board has a count in `[1, 8]` equal
to the number of mines among its up-to-8 in-bounds neighbours in the
annotated board's own mine layout. -/
theorem C4_hint_invariant (b : Board) (hwf : b.WellFormed)
    (hnn : noNumbers b) (b' : Board) (hb' : numbers_on_board b = some b') :
    ∀ p o n, b'.at? p = some (MapElement.Number o n) →
      1 ≤ n ∧ n ≤ 8 ∧ n = (mineNeighbors b' p : Int) := by
  rw [numbers_eq b hwf hnn] at hb'
  cases hb'
  intro p o n hat
  have hin : b.InB p :=
    inB_of_at?_some (Board.mk (gridMap b.width b.height (annCell b))
      b.width b.height b.mines) p _ hat
  rw [at?_gridMap _ _ _ _ p hin] at hat
  obtain ⟨hx0, hx, hy0, hy⟩ := hin
  unfold annCell at hat
  rw [point_new_toNat p hx0 hy0] at hat
  cases hbp : b.at? p with
  | none =>
    rw [hbp] at hat
    simp at hat
  | some e =>
    rw [hbp] at hat
    cases e with
    | Mine o2 => simp at hat
    | Empty o2 =>
      rw [countMines_eq_mineNeighbors b p] at hat
      by_cases hz : mineNeighbors b p = 0
      · rw [if_pos (by exact_mod_cast hz)] at hat
        simp at hat
      · rw [if_neg (by exact_mod_cast hz)] at hat
        simp only [Option.some.injEq, MapElement.Number.injEq] at hat
        have h8 : mineNeighbors b p ≤ 8 := by
          unfold mineNeighbors
          calc ((surrounding_points p).filter (fun q => isMineAt b q)).length
              ≤ (surrounding_points p).length := List.length_filter_le _ _
            _ = 8 := surrounding_points_length p
        have hmn := mineNeighbors_annBoard b hwf p
        refine ⟨?_, ?_, ?_⟩
        · rw [← hat.2]
          omega
        · rw [← hat.2]
          omega
        · rw [← hat.2, hmn]
    | Number o2 c2 => simp at hat

/-- Witness for C4 on the annotated fixture: the hint at `(1, 0)` has
count 2. -/
theorem C4_witness :
    (1 : Int) ≤ 2 ∧ (2 : Int) ≤ 8 ∧
      (2 : Int) = (mineNeighbors bDiagAnn ⟨1, 0⟩ : Int) :=
  C4_hint_invariant bDiag (by decide) (by decide) bDiagAnn (by decide)
    ⟨1, 0⟩ false 2 (by decide)

/-- C2: whenever `create_board w h m s fuel` returns a board (the random
source staying in the requested half-open ranges), the board records the
requested dimensions and mine count, its grid has exactly `h` rows of `w`
columns, exactly `m` of its cells are mines (at `m` distinct points), and
every cell is an unrevealed mine or an unrevealed blank. -/
theorem C2_create_board_spec (w h m : Nat) (s : Nat → Nat) (fuel : Nat)
    (b : Board) (hsx : ∀ k, s (2 * k) < w) (hsy : ∀ k, s (2 * k + 1) < h)
    (hb : create_board w h m s fuel = some b) :
    b.width = w ∧ b.height = h ∧ b.mines = m ∧
    b.map.length = h ∧ (∀ row ∈ b.map, row.length = w) ∧
    mineCells b = m ∧
    (∀ row ∈ b.map, ∀ e ∈ row,
      e = MapElement.Mine false ∨ e = MapElement.Empty false) := by
  rw [create_board_eq, Option.map_eq_some'] at hb
  obtain ⟨pts, hpts, hb⟩ := hb
  cases hb
  obtain ⟨hnd, hlen, hmem⟩ := placeMines_sound s m fuel 0 [] pts hpts List.nodup_nil
  have hsub : ∀ p ∈ pts, p ∈ gridPoints w h := by
    intro p hp
    rcases hmem p hp with hin | ⟨k, rfl⟩
    · cases hin
    · rw [mem_gridPoints]
      unfold drawPt
      simp only []
      have h1 := hsx k
      have h2 := hsy k
      refine ⟨by omega, by omega, by omega, by omega⟩
  refine ⟨rfl, rfl, rfl, ?_, ?_, ?_, ?_⟩
  · simp [gridMap]
  · intro row hrow
    simp only [gridMap, List.mem_map] at hrow
    obtain ⟨y, _, rfl⟩ := hrow
    simp
  · rw [mineCells_grid, countP_gridPoints_eq_length w h pts hnd hsub]
    exact hlen
  · intro row hrow e he
    simp only [gridMap, List.mem_map] at hrow
    obtain ⟨y, _, rfl⟩ := hrow
    simp only [List.mem_map] at he
    obtain ⟨x, _, rfl⟩ := he
    by_cases hmem2 : Point.new x y ∈ pts
    · left
      simp [hmem2]
    · right
      simp [hmem2]

/-- Witness for C2: a deterministic in-range source filling the diagonal
of a 5×4 board with 4 mines. -/
theorem C2_witness : mineCells bDiag = 4 ∧ bDiag.map.length = 4 := by
  have H := C2_create_board_spec 5 4 4 (fun k => k / 2 % 4) 4 bDiag
    (fun k => by show 2 * k / 2 % 4 < 5; omega)
    (fun k => by show (2 * k + 1) / 2 % 4 < 4; omega)
    (by decide)
  exact ⟨H.2.2.2.2.2.1, H.2.2.2.1⟩

/-- C7 counterexample: a random source that always returns 0 stays in the
requested ranges on a 2×2 board, the precondition `2 < 2*2` holds, yet
`create_board 2 2 2` never terminates with it: after `(0,0)` is accepted,
every further draw is rejected forever. -/
theorem C7_counterexample :
    (∀ k, (fun _ : Nat => 0) k < 2) ∧ 2 < 2 * 2 ∧
      ¬ create_board_terminates 2 2 2 (fun _ => 0) := by
  refine ⟨fun _ => by show (0 : Nat) < 2; omega, by omega, ?_⟩
  rintro ⟨fuel, hfuel⟩
  rw [create_board_const_none fuel] at hfuel
  simp at hfuel

/-- C7 (amended): the rejection-sampling loop of `create_board` terminates
whenever the random source's first `K` draws contain at least `mineCount`
distinct points — true of uniform sources with probability 1 when
`mineCount < width*height`, but not of every in-range source. -/
theorem C7_terminates_of_draws (w h m : Nat) (s : Nat → Nat) (K : Nat)
    (hm : m ≤ ((List.range K).map (drawPt s)).toFinset.card) :
    create_board_terminates w h m s :=
  ⟨K, create_board_isSome_of_draws w h m s K hm⟩

/-- Witness for the amended C7. -/
theorem C7_witness : create_board_terminates 2 2 2 (fun k => k / 2 % 2) :=
  C7_terminates_of_draws 2 2 2 (fun k => k / 2 % 2) 2 (by decide)

/-- C10: annotation panics exactly when the board holds a hint cell at
some in-bounds point (so it is total only over all-mine-or-blank boards),
and annotating an annotation that contains a hint cell panics again. -/
theorem C10_annotate_panics (b : Board) (hwf : b.WellFormed) :
    (numbers_on_board b = none ↔
      ∃ p o c, b.at? p = some (MapElement.Number o c)) ∧
    (∀ b', numbers_on_board b = some b' →
      (∃ p o c, b'.at? p = some (MapElement.Number o c)) →
      numbers_on_board b' = none) := by
  refine ⟨numbers_none_iff b hwf, ?_⟩
  intro b' hb' hex
  exact (numbers_none_iff b' (numbers_wf b b' hb').1).mpr hex

/-- Witness for C10: a 1×1 board holding a hint cell makes annotation
panic. -/
theorem C10_witness : numbers_on_board bNum11 = none :=
  (C10_annotate_panics bNum11 (by decide)).1.mpr ⟨⟨0, 0⟩, false, 1, by decide⟩
